import Mathlib

/-!
Verification development for the VC4C optimization/scheduling core:
the use-def registry (`Locals.cpp`), the NOP-replacement scheduler and its
candidate search, the read-after-write splitter and the rotation hoister
(`optimization/Reordering.cpp`), and the `saturate` helper (`asm/OpCodes.h`),
shallowly embedded as executable Lean definitions.
-/

namespace VC4C

/-! ## Use-def registry (`Locals.cpp`) -/

/-- Modelled from the spec: the use record for a (Local, user) pair is "an
accumulating pair of counters (read-count, write-count)"; the counters are
machine unsigned integers (the `LocalUse` declaration lives in the header,
which is not among the core sources), so increment/decrement wrap at 2^32. -/
structure LocalUse where
  numReads : Nat
  numWrites : Nat
deriving DecidableEq, Repr

/-- Wrapping increment of an unsigned 32-bit counter. -/
def wrapInc (n : Nat) : Nat := (n + 1) % 2 ^ 32

/-- Wrapping decrement of an unsigned 32-bit counter. -/
def wrapDec (n : Nat) : Nat := (n + (2 ^ 32 - 1)) % 2 ^ 32

/-- Modelled from the spec: a use record marks its user a reader while its
read counter is non-zero (`LocalUse::readsLocal` is declared in the header,
not among the core sources). -/
def LocalUse.readsLocal (u : LocalUse) : Bool := u.numReads != 0

/-- Modelled from the spec: a use record marks its user a writer while its
write counter is non-zero. -/
def LocalUse.writesLocal (u : LocalUse) : Bool := u.numWrites != 0

/-- The flag value `LocalUser::Type::READER` (bitmask, modelled from the spec's
flag set \x7bREADER, WRITER, BOTH\x7d). -/
def READER : Nat := 1

/-- The flag value `LocalUser::Type::WRITER`. -/
def WRITER : Nat := 2

/-- The flag value `LocalUser::Type::BOTH` (= READER ||| WRITER). -/
def BOTH : Nat := 3

/-- Modelled from the spec: `has_flag` tests flag containment in a bitmask
(declared in a helper header not among the core sources). -/
def has_flag (field flag : Nat) : Bool := field &&& flag == flag

/-- A Local's user map: an ordered map from users (modelled by numeric ids,
standing for the `LocalUser*` keys) to their use records, insertion-ordered
as the spec requires of `OrderedMap`. -/
abbrev UserMap := List (Nat × LocalUse)

/-- Lookup of a user's use record (`users.find(&user)`). -/
def findUser : UserMap → Nat → Option LocalUse
  | [], _ => none
  | (k, use) :: rest, u => if k = u then some use else findUser rest u

/-- Pointwise update of the record stored for user `u` (`users.at(&user)`
followed by in-place mutation). -/
def updateUser (users : UserMap) (u : Nat) (f : LocalUse → LocalUse) : UserMap :=
  users.map fun p => if p.1 = u then (p.1, f p.2) else p

/-- Erasure of the record stored for user `u` (`users.erase(&user)`). -/
def eraseUser (users : UserMap) (u : Nat) : UserMap :=
  users.filter fun p => p.1 ≠ u

/-- `Local::addUser` (Locals.cpp:100-109): create the record if absent, then
increment the read and/or write counter according to the kind's flags. -/
def Local.addUser (users : UserMap) (u : Nat) (kind : Nat) : UserMap :=
  let users' := if (findUser users u).isNone then users ++ [(u, ⟨0, 0⟩)] else users
  updateUser users' u fun use =>
    ⟨if has_flag kind READER then wrapInc use.numReads else use.numReads,
     if has_flag kind WRITER then wrapInc use.numWrites else use.numWrites⟩

/-- `Local::removeUser` (Locals.cpp:81-98): `BOTH` erases unconditionally;
otherwise a missing record is a compilation error, else the matching counter
is decremented and the record is erased once both counters are zero. -/
def Local.removeUser (users : UserMap) (u : Nat) (kind : Nat) :
    Except String UserMap :=
  if kind = BOTH then
    Except.ok (eraseUser users u)
  else
    match findUser users u with
    | none => Except.error ("Trying to remove a not registered user for a local")
    | some use =>
      let use' : LocalUse :=
        ⟨if kind = READER then wrapDec use.numReads else use.numReads,
         if kind = WRITER then wrapDec use.numWrites else use.numWrites⟩
      if !use'.readsLocal && !use'.writesLocal then Except.ok (eraseUser users u)
      else Except.ok (updateUser users u fun _ => use')

/-- Whether the registry's record (if any) marks user `u` a reader of this
local — the `pair.second.readsLocal()` test used by `Local::getUsers` and
`Local::forUsers` (Locals.cpp:61-79). -/
def userReadsLocal (users : UserMap) (u : Nat) : Bool :=
  match findUser users u with
  | some use => use.readsLocal
  | none => false

/-- Whether the registry's record (if any) marks user `u` a writer of this
local. -/
def userWritesLocal (users : UserMap) (u : Nat) : Bool :=
  match findUser users u with
  | some use => use.writesLocal
  | none => false

/-- Accumulator loop of `Local::getSingleWriter` (Locals.cpp:111-125):
scan the records in order; a second writer forces "none". -/
def getSingleWriterGo : UserMap → Option Nat → Option Nat
  | [], acc => acc
  | (u, use) :: rest, acc =>
    if use.writesLocal then
      match acc with
      | some _ => none
      | none => getSingleWriterGo rest (some u)
    else getSingleWriterGo rest acc

/-- `Local::getSingleWriter` (Locals.cpp:111-125). -/
def getSingleWriter (users : UserMap) : Option Nat :=
  getSingleWriterGo users none

/-- The users whose records mark them writers, in map order (specification
device for stating `getSingleWriter`'s contract). -/
def writersOf (users : UserMap) : List Nat :=
  (users.filter fun p => p.2.writesLocal).map Prod.fst

/-! ## `saturate` (`asm/OpCodes.h` lines 22-25) -/

/-- `saturate<T>(val)`: clamp a (signed 64-bit) value into the range
`[tmin, tmax]` of the target integral type `T`, whose bounds are taken as
(long-converted) integers. -/
def saturate (tmin tmax v : Int) : Int := min (max v tmin) tmax

/-! ## Registry lemmas -/

theorem findUser_cons_none {k : Nat} {use : LocalUse} {rest : UserMap} {u : Nat}
    (h : findUser ((k, use) :: rest) u = none) : k ≠ u ∧ findUser rest u = none := by
  by_cases hk : k = u
  · simp [findUser, hk] at h
  · simpa [findUser, hk] using h

theorem findUser_none_notMem {users : UserMap} {u : Nat}
    (h : findUser users u = none) : ∀ p ∈ users, p.1 ≠ u := by
  induction users with
  | nil => intro p hp; cases hp
  | cons q rest ih =>
    obtain ⟨hk, hrest⟩ := @findUser_cons_none q.1 q.2 rest u h
    intro p hp
    rcases List.mem_cons.mp hp with rfl | hp'
    · exact hk
    · exact ih hrest p hp'

theorem updateUser_fresh_noop {users : UserMap} {u : Nat}
    (f : LocalUse → LocalUse) (h : findUser users u = none) :
    updateUser users u f = users := by
  have hmem := findUser_none_notMem h
  induction users with
  | nil => rfl
  | cons q rest ih =>
    obtain ⟨hk, hrest⟩ := @findUser_cons_none q.1 q.2 rest u h
    have := ih hrest (findUser_none_notMem hrest)
    simpa [updateUser, hk] using this

theorem updateUser_append_fresh {users : UserMap} {u : Nat} {z : LocalUse}
    (f : LocalUse → LocalUse) (h : findUser users u = none) :
    updateUser (users ++ [(u, z)]) u f = users ++ [(u, f z)] := by
  unfold updateUser
  rw [List.map_append]
  have h1 : updateUser users u f = users := updateUser_fresh_noop f h
  unfold updateUser at h1
  rw [h1]
  simp

theorem findUser_append_fresh {users : UserMap} {u : Nat} {z : LocalUse}
    (h : findUser users u = none) :
    findUser (users ++ [(u, z)]) u = some z := by
  induction users with
  | nil => simp [findUser]
  | cons q rest ih =>
    obtain ⟨hk, hrest⟩ := @findUser_cons_none q.1 q.2 rest u h
    simpa [findUser, hk] using ih hrest

theorem eraseUser_append_fresh {users : UserMap} {u : Nat} {z : LocalUse}
    (h : findUser users u = none) :
    eraseUser (users ++ [(u, z)]) u = users := by
  have hmem := findUser_none_notMem h
  unfold eraseUser
  rw [List.filter_append]
  have h1 : users.filter (fun p => p.1 ≠ u) = users :=
    List.filter_eq_self.mpr (by intro p hp; simpa using hmem p hp)
  have h2 : ([((u : Nat), z)] : UserMap).filter (fun p => p.1 ≠ u) = [] := by simp
  rw [h1, h2, List.append_nil]

theorem findUser_eraseUser (users : UserMap) (u : Nat) :
    findUser (eraseUser users u) u = none := by
  induction users with
  | nil => rfl
  | cons q rest ih =>
    by_cases hq : q.1 = u
    · simpa [eraseUser, hq] using ih
    · simpa [eraseUser, findUser, hq] using ih

theorem eraseUser_idem (users : UserMap) (u : Nat) :
    eraseUser (eraseUser users u) u = eraseUser users u := by
  unfold eraseUser
  rw [List.filter_filter]
  simp

/-- C4: adding user `U` as a reader to a local that does not yet record `U`
and then removing it as a reader restores the original map: no record for `U`
remains, and the registry reports `U` as neither reader nor writer. -/
theorem add_remove_reader_roundtrip (users : UserMap) (u : Nat)
    (h : findUser users u = none) :
    ∃ users', Local.removeUser (Local.addUser users u READER) u READER = Except.ok users' ∧
      findUser users' u = none ∧
      userReadsLocal users' u = false ∧ userWritesLocal users' u = false := by
  refine ⟨users, ?_, h, ?_, ?_⟩
  · have hadd : Local.addUser users u READER = users ++ [(u, ⟨1, 0⟩)] := by
      unfold Local.addUser
      rw [if_pos (by simp [h])]
      rw [updateUser_append_fresh _ h]
      norm_num [has_flag, READER, WRITER, wrapInc]
    rw [hadd]
    unfold Local.removeUser
    rw [if_neg (by norm_num [READER, BOTH])]
    rw [findUser_append_fresh h]
    have hdec : wrapDec 1 = 0 := by norm_num [wrapDec]
    simp only [READER, WRITER]
    norm_num [hdec, LocalUse.readsLocal, LocalUse.writesLocal]
    exact eraseUser_append_fresh h
  · simp [userReadsLocal, h]
  · simp [userWritesLocal, h]

/-- Closed witness for `add_remove_reader_roundtrip` at a concrete input. -/
theorem add_remove_reader_roundtrip_witness :
    ∃ users', Local.removeUser (Local.addUser [(3, ⟨2, 1⟩)] 5 READER) 5 READER = Except.ok users' ∧
      findUser users' 5 = none ∧
      userReadsLocal users' 5 = false ∧ userWritesLocal users' 5 = false :=
  add_remove_reader_roundtrip [(3, ⟨2, 1⟩)] 5 (by decide)

/-- C5: `removeUser` with a kind other than `BOTH` fails (with the
invariant-violation compilation error) exactly when the local has no record
for the user; `removeUser` with `BOTH` never fails, unconditionally drops the
record, and is idempotent — a second call succeeds and no record remains. -/
theorem removeUser_error_contract :
    (∀ (users : UserMap) (u kind : Nat), kind ≠ BOTH →
      ((∃ e, Local.removeUser users u kind = Except.error e) ↔ findUser users u = none))
    ∧ (∀ (users : UserMap) (u : Nat),
        Local.removeUser users u BOTH = Except.ok (eraseUser users u))
    ∧ (∀ (users : UserMap) (u : Nat), ∃ users2,
        Local.removeUser users u BOTH = Except.ok users2 ∧
        Local.removeUser users2 u BOTH = Except.ok users2 ∧
        findUser users2 u = none) := by
  refine ⟨?_, ?_, ?_⟩
  · intro users u kind hk
    unfold Local.removeUser
    rw [if_neg hk]
    constructor
    · intro ⟨e, he⟩
      cases hf : findUser users u with
      | none => rfl
      | some use =>
        rw [hf] at he
        by_cases hz : (!LocalUse.readsLocal ⟨if kind = READER then wrapDec use.numReads else use.numReads, if kind = WRITER then wrapDec use.numWrites else use.numWrites⟩ && !LocalUse.writesLocal ⟨if kind = READER then wrapDec use.numReads else use.numReads, if kind = WRITER then wrapDec use.numWrites else use.numWrites⟩) = true
        · simp only [hz, if_true] at he
          cases he
        · simp only [Bool.not_eq_true] at hz
          simp only [hz, if_false] at he
          cases he
    · intro hf
      rw [hf]
      exact ⟨_, rfl⟩
  · intro users u
    unfold Local.removeUser
    rw [if_pos rfl]
  · intro users u
    refine ⟨eraseUser users u, ?_, ?_, ?_⟩
    · unfold Local.removeUser; rw [if_pos rfl]
    · unfold Local.removeUser; rw [if_pos rfl, eraseUser_idem]
    · exact findUser_eraseUser users u

/-- Closed witness for `removeUser_error_contract` at a concrete input. -/
theorem removeUser_error_contract_witness :
    ∃ e, Local.removeUser [(3, ⟨2, 1⟩)] 5 READER = Except.error e :=
  (removeUser_error_contract.1 [(3, ⟨2, 1⟩)] 5 READER (by decide)).mpr (by decide)

theorem getSingleWriterGo_some (users : UserMap) (w : Nat) :
    getSingleWriterGo users (some w) =
      if writersOf users = [] then some w else none := by
  induction users with
  | nil => simp [getSingleWriterGo, writersOf]
  | cons q rest ih =>
    by_cases hw : q.2.writesLocal
    · simp [getSingleWriterGo, writersOf, hw]
    · have hcase : writersOf (q :: rest) = writersOf rest := by
        simp [writersOf, hw]
      rw [hcase]
      show getSingleWriterGo (q :: rest) (some w) = _
      rw [getSingleWriterGo, if_neg (by simp [hw])]
      exact ih

/-- C6: `getSingleWriter` returns the unique writing user when the records
mark exactly one user a writer, and "none" otherwise — both when no user
writes and when two or more do. -/
theorem getSingleWriter_spec (users : UserMap) :
    getSingleWriter users =
      match writersOf users with
      | [w] => some w
      | _ => none := by
  unfold getSingleWriter
  induction users with
  | nil => simp [getSingleWriterGo, writersOf]
  | cons q rest ih =>
    by_cases hw : q.2.writesLocal
    · have : writersOf (q :: rest) = q.1 :: writersOf rest := by
        simp [writersOf, hw]
      rw [this]
      show getSingleWriterGo (q :: rest) none = _
      rw [getSingleWriterGo]
      rw [if_pos hw]
      rw [getSingleWriterGo_some]
      cases hrest : writersOf rest with
      | nil => simp
      | cons a l => simp [hrest]
    · have : writersOf (q :: rest) = writersOf rest := by
        simp [writersOf, hw]
      rw [this]
      show getSingleWriterGo (q :: rest) none = _
      rw [getSingleWriterGo]
      rw [if_neg hw]
      exact ih

/-- C10: `saturate` clamps its argument into `[tmin, tmax]`: the result lies
in the target type's range, equals the argument exactly when the argument is
already in range, and is the min/max clamping expression. -/
theorem saturate_clamps (tmin tmax v : Int) (h : tmin ≤ tmax) :
    tmin ≤ saturate tmin tmax v ∧ saturate tmin tmax v ≤ tmax ∧
      (tmin ≤ v → v ≤ tmax → saturate tmin tmax v = v) ∧
      saturate tmin tmax v = min (max v tmin) tmax := by
  refine ⟨?_, ?_, ?_, rfl⟩
  · exact le_min (le_max_right _ _) h
  · exact min_le_right _ _
  · intro h1 h2
    unfold saturate
    rw [max_eq_left h1, min_eq_left h2]

/-- Closed witness for `saturate_clamps` at the bounds of `signed char`. -/
theorem saturate_clamps_witness :
    (-128 : Int) ≤ saturate (-128) 127 300 ∧ saturate (-128) 127 300 ≤ 127 ∧
      ((-128 : Int) ≤ 300 → (300 : Int) ≤ 127 → saturate (-128) 127 300 = 300) ∧
      saturate (-128) 127 300 = min (max 300 (-128)) 127 :=
  saturate_clamps (-128) 127 300 (by norm_num)

/-! ## Data model for the scheduler (`optimization/Reordering.cpp`) -/

/-- The hardware registers the reordering pass singles out (mutex, discard,
SFU request registers, the shared SFU result, TMU address, VPM address, busy
and data registers), plus numbered general registers. -/
inductive Reg
  | mutex
  | nopReg
  | sfu_exp2
  | sfu_log2
  | sfu_out
  | sfu_recip
  | sfu_recip_sqrt
  | tmu_address
  | vpm_in_addr
  | vpm_out_addr
  | vpm_in_busy
  | vpm_out_busy
  | vpm_io
  | general (n : Nat)
deriving DecidableEq, Repr

/-- The static types the reordering pass attaches to the special-register
values it builds (`TYPE_UNKNOWN`, `TYPE_FLOAT`, `TYPE_VOID.toPointerType()`),
plus ordinary types. -/
inductive VType
  | unknown
  | float
  | voidPtr
  | int32
deriving DecidableEq, Repr

/-- A `Value`: a register designator, a reference to a Local (by numeric id),
or a literal, each with a static type; equality is structural, as for the
`FastSet<Value>` exclusion sets. -/
inductive Value
  | reg (r : Reg) (t : VType)
  | localVal (l : Nat) (t : VType)
  | lit (n : Int) (t : VType)
deriving DecidableEq, Repr

/-- `Value::hasRegister`: the value designates exactly this register. -/
def Value.hasRegister : Value → Reg → Bool
  | .reg r _, r' => r = r'
  | _, _ => false

/-- `Value::hasLocal`: the value references exactly this Local. -/
def Value.hasLocal : Value → Nat → Bool
  | .localVal l _, l' => l = l'
  | _, _ => false

/-- `DelayType`: the closed set of hazard reasons a placeholder NOP carries. -/
inductive DelayType
  | branch_delay
  | thread_end
  | wait_register
  | wait_sfu
  | wait_tmu
deriving DecidableEq, Repr

/-- The dynamic kind of an instruction, as tested by `it.has<Branch>()`,
`it.has<BranchLabel>()`, `it.has<MemoryBarrier>()`, `it.has<Nop>()` and
`it.has<VectorRotation>()`; `move` covers `MoveOperation`, `op` every other
real instruction. -/
inductive InstrKind
  | branch
  | label
  | barrier
  | nop (d : DelayType)
  | rotation
  | move
  | op
deriving DecidableEq, Repr

/-- An instruction as the scheduler observes it: kind, optional result,
ordered arguments, and the derived flags the candidate search queries. -/
structure Instruction where
  kind : InstrKind
  output : Option Value
  args : List Value
  condExec : Bool
  sideEffects : Bool
  mapsToASM : Bool
  canBeCombined : Bool
  packMode : Bool
deriving DecidableEq, Repr

/-- Whether the instruction is a `Branch`. -/
def Instruction.isBranch (i : Instruction) : Bool :=
  match i.kind with
  | .branch => true
  | _ => false

/-- Whether the instruction is a `BranchLabel` (block-start label). -/
def Instruction.isLabel (i : Instruction) : Bool :=
  match i.kind with
  | .label => true
  | _ => false

/-- Whether the instruction is a `MemoryBarrier`. -/
def Instruction.isBarrier (i : Instruction) : Bool :=
  match i.kind with
  | .barrier => true
  | _ => false

/-- Whether the instruction is a `Nop` placeholder. -/
def Instruction.isNop (i : Instruction) : Bool :=
  match i.kind with
  | .nop _ => true
  | _ => false

/-- Whether the instruction is a `VectorRotation`. -/
def Instruction.isRotation (i : Instruction) : Bool :=
  match i.kind with
  | .rotation => true
  | _ => false

/-- The `DelayType` of a `Nop` placeholder, when the instruction is one. -/
def Instruction.nopType (i : Instruction) : Option DelayType :=
  match i.kind with
  | .nop d => some d
  | _ => none

/-- `readsLocal` on the instruction side: some argument references the Local. -/
def Instruction.readsLocalId (i : Instruction) (l : Nat) : Bool :=
  i.args.any fun a => a.hasLocal l

/-- The Local the instruction's result writes, when the result is a Local
(`hasValueType(ValueType::LOCAL) ? getOutput().get().local : nullptr`). -/
def Instruction.outputLocal (i : Instruction) : Option Nat :=
  match i.output with
  | some (Value.localVal l _) => some l
  | _ => none

/-- `VectorRotation::getSource()`: the first argument. -/
def Instruction.getSource (i : Instruction) : Option Value :=
  i.args.get? 0

/-- A basic block as a sequence of instruction slots; `none` is a slot whose
instruction was released ("already replaced instructions"), compacted out
only by `cleanEmptyInstructions`. A position (`InstructionWalker`) is an
index; the block's length is its end. -/
abbrev Block := List (Option Instruction)

/-- The slot at a position: the instruction there, or `none` for a released
slot or an out-of-range position. -/
def slotAt (block : Block) (pos : Nat) : Option Instruction :=
  (block.get? pos).getD none

/-- A fresh `Nop` placeholder (`new Nop(delay)`), side-effect free. -/
def mkNop (d : DelayType) : Instruction :=
  { kind := .nop d, output := none, args := [], condExec := false,
    sideEffects := false, mapsToASM := true, canBeCombined := true,
    packMode := false }

/-- A `MoveOperation(tmp, loc->createReference())` copying local `loc` into
the new temporary `tmpId` (both typed with the local's type). -/
def mkMove (tmpId : Nat) (t : VType) (loc : Nat) : Instruction :=
  { kind := .move, output := some (.localVal tmpId t),
    args := [.localVal loc t], condExec := false, sideEffects := false,
    mapsToASM := true, canBeCombined := true, packMode := false }

/-! ## The candidate search (`findInstructionNotAccessing`, lines 36-131) -/

/-- Modelled from the spec: the fixed lookahead bound
`REPLACE_NOP_MAX_INSTRUCTIONS_TO_CHECK` (declared in the configuration
header, not among the core sources); its numeric value only caps pass
latency, so any positive constant realizes the contract. -/
def REPLACE_NOP_MAX_INSTRUCTIONS_TO_CHECK : Nat := 16

/-- The six-value SFU/TMU hazard group the search excludes wholesale:
the four SFU request registers, the shared SFU result and the TMU address
(lines 117-122 and 183-188). -/
def sfuTmuGroup : List Value :=
  [Value.reg .sfu_exp2 .float, Value.reg .sfu_log2 .float,
   Value.reg .sfu_out .float, Value.reg .sfu_recip .float,
   Value.reg .sfu_recip_sqrt .float, Value.reg .tmu_address .voidPtr]

/-- Whether a result value targets an SFU request register or the TMU address
(the trigger for widening the exclusion set to the whole group, line 114). -/
def isSfuTmuTarget (v : Value) : Bool :=
  v.hasRegister .sfu_exp2 || v.hasRegister .sfu_log2 ||
  v.hasRegister .sfu_recip || v.hasRegister .sfu_recip_sqrt ||
  v.hasRegister .tmu_address

/-- Whether the instruction's result is in the exclusion set (lines 51-54). -/
def outputExcluded (i : Instruction) (ex : List Value) : Bool :=
  match i.output with
  | some v => ex.contains v
  | none => false

/-- Whether some argument of the instruction is in the exclusion set
(lines 55-62). -/
def argsExcluded (i : Instruction) (ex : List Value) : Bool :=
  i.args.any fun a => ex.contains a

/-- The exclusion-independent rejection checks of the scan, in source order:
no conditional execution or side effects (line 65), no branch, label or
barrier (line 69), no placeholder (line 75), and the instruction must map to
a machine instruction (line 80). -/
def passesKindChecks (i : Instruction) : Bool :=
  !i.condExec && !i.sideEffects && !i.isBranch && !i.isLabel &&
  !i.isBarrier && !i.isNop && i.mapsToASM

/-- All rejection checks before the mutex tests: neither result nor any
argument excluded, and the kind checks. -/
def passesBasicChecks (i : Instruction) (ex : List Value) : Bool :=
  !outputExcluded i ex && !argsExcluded i ex && passesKindChecks i

/-- Whether the instruction touches the mutex register in the positions the
search tests: as its result (line 85) or as its first or second argument
(line 92). -/
def isMutexInstr (i : Instruction) : Bool :=
  (match i.output with
   | some v => v.hasRegister .mutex
   | none => false) ||
  (match i.args.get? 0 with
   | some a => a.hasRegister .mutex
   | none => false) ||
  (match i.args.get? 1 with
   | some a => a.hasRegister .mutex
   | none => false)

/-- The exclusion-set growth for a skipped instruction (lines 108-124):
record its result unless discarded to the NOP register, widening to the full
SFU/TMU group for special-function results. -/
def excludedStep (i : Instruction) (ex : List Value) : List Value :=
  match i.output with
  | none => ex
  | some v =>
    if v.hasRegister .nopReg then ex
    else
      let ex1 := ex.insert v
      if isSfuTmuTarget v then sfuTmuGroup.foldl (fun e x => e.insert x) ex1
      else ex1

/-- `findInstructionNotAccessing` (lines 36-131): bounded forward scan from
`pos` for the first instruction passing every check, returning its position;
the block's length encodes "no candidate" (`basicBlock.end()`), returned when
the lookahead budget is exhausted, the block ends, or a mutex access is
reached with the earlier checks passed. -/
def findInstructionNotAccessing (block : Block) : Nat → Nat → List Value → Nat
  | 0, _, _ => block.length
  | fuel + 1, pos, ex =>
    if pos < block.length then
      match slotAt block pos with
      | none => findInstructionNotAccessing block fuel (pos + 1) ex
      | some i =>
        if passesBasicChecks i ex then
          if isMutexInstr i then block.length else pos
        else
          findInstructionNotAccessing block fuel (pos + 1) (excludedStep i ex)
    else pos

/-- The exclusion set the scan holds when it inspects the slot `k` positions
after `pos`, mirroring `findInstructionNotAccessing`'s growth on skipped
instructions. -/
def excludedAfter (block : Block) : Nat → Nat → List Value → List Value
  | 0, _, ex => ex
  | k + 1, pos, ex =>
    match slotAt block pos with
    | none => excludedAfter block k (pos + 1) ex
    | some i =>
      if passesBasicChecks i ex then excludedAfter block k (pos + 1) ex
      else excludedAfter block k (pos + 1) (excludedStep i ex)

/-- `findPreviousInstruction` (lines 19-31): walk backwards from `pos` to the
nearest position holding an instruction that produced a result, stopping at
the block start. -/
def findPreviousInstruction (block : Block) : Nat → Nat
  | 0 => 0
  | pos + 1 =>
    match slotAt block (pos + 1) with
    | some i => if i.output.isSome then pos + 1 else findPreviousInstruction block pos
    | none => findPreviousInstruction block pos

/-- The extra VPM-coupled hazard registers excluded alongside a result that
wrote the VPM input or output address register (lines 164-173). -/
def vpmExtra (v : Value) : List Value :=
  (if v.hasRegister .vpm_in_addr then
    [Value.reg .vpm_in_busy .unknown, Value.reg .vpm_io .unknown]
   else []) ++
  (if v.hasRegister .vpm_out_addr then
    [Value.reg .vpm_out_busy .unknown, Value.reg .vpm_io .unknown]
   else [])

/-- `findReplacementCandidate` (lines 137-197): per-`DelayType` construction
of the exclusion set, then the bounded forward scan; `BRANCH_DELAY` and
`THREAD_END` placeholders are never replaceable, and a `WAIT_REGISTER`
placeholder whose producing instruction is not found before it in the block
aborts the search. -/
def findReplacementCandidate (block : Block) (pos : Nat) (reason : DelayType) : Nat :=
  match reason with
  | .branch_delay => block.length
  | .thread_end => block.length
  | .wait_register =>
    let last := findPreviousInstruction block pos
    if last = 0 then block.length
    else
      match slotAt block last with
      | some li =>
        match li.output with
        | some v =>
          findInstructionNotAccessing block REPLACE_NOP_MAX_INSTRUCTIONS_TO_CHECK
            pos ([v] ++ vpmExtra v)
        | none => block.length
      | none => block.length
  | .wait_sfu =>
    findInstructionNotAccessing block REPLACE_NOP_MAX_INSTRUCTIONS_TO_CHECK pos sfuTmuGroup
  | .wait_tmu =>
    findInstructionNotAccessing block REPLACE_NOP_MAX_INSTRUCTIONS_TO_CHECK pos sfuTmuGroup

/-! ## NOP replacement (`replaceNOPs`, lines 226-248, and
`reorderWithinBasicBlocks`, lines 291-307) -/

/-- The instruction installed at a placeholder's position (lines 240-243):
the candidate, with fusion disallowed when the placeholder itself disallowed
it. -/
def installFlag (nopI cand : Instruction) : Instruction :=
  if nopI.canBeCombined then cand else { cand with canBeCombined := false }

/-- The walk of `replaceNOPs` from slot `idx` on: each side-effect-free `Nop`
placeholder is replaced by its search's candidate, whose own slot is reset to
empty (not erased); the fuel argument only bounds the structural recursion
and one unit is spent per visited slot, so `block.length` fuel runs the loop
to the block's end. -/
def replaceNOPsGo : Nat → Block → Nat → Block
  | 0, block, _ => block
  | fuel + 1, block, idx =>
    if idx < block.length then
      match slotAt block idx with
      | some i =>
        match i.kind with
        | .nop d =>
          if i.sideEffects then replaceNOPsGo fuel block (idx + 1)
          else
            let r := findReplacementCandidate block idx d
            if r < block.length then
              match slotAt block r with
              | some cand =>
                replaceNOPsGo fuel
                  ((block.set r none).set idx (some (installFlag i cand))) (idx + 1)
              | none => replaceNOPsGo fuel block (idx + 1)
            else replaceNOPsGo fuel block (idx + 1)
        | _ => replaceNOPsGo fuel block (idx + 1)
      | none => replaceNOPsGo fuel block (idx + 1)
    else block

/-- `replaceNOPs` over one basic block (lines 226-248). -/
def replaceNOPsBlock (block : Block) : Block :=
  replaceNOPsGo block.length block 0

/-- `Method::cleanEmptyInstructions`: compact the released (empty) slots out
of a block. -/
def cleanEmptyInstructions (block : Block) : List Instruction :=
  block.filterMap id

/-- `reorderWithinBasicBlocks` (lines 291-307): run `replaceNOPs` on every
block, then compact the empty slots left behind. -/
def reorderWithinBasicBlocks (blocks : List Block) : List (List Instruction) :=
  (blocks.map replaceNOPsBlock).map cleanEmptyInstructions

/-! ## Candidate-search lemmas -/

theorem slotAt_some_lt {block : Block} {pos : Nat} {i : Instruction}
    (h : slotAt block pos = some i) : pos < block.length := by
  by_contra hge
  have : block.get? pos = none := List.get?_eq_none.mpr (Nat.le_of_not_lt hge)
  rw [slotAt, this] at h
  cases h

/-- A selected candidate (result below the block length) lies in the
lookahead window, holds an instruction, and that instruction passed the
kind checks and is not a mutex access. -/
theorem find_sel_valid (block : Block) :
    ∀ (fuel pos : Nat) (ex : List Value) (r : Nat),
      findInstructionNotAccessing block fuel pos ex = r → r < block.length →
      pos ≤ r ∧ r < pos + fuel ∧
        ∃ i, slotAt block r = some i ∧ passesKindChecks i = true ∧
          isMutexInstr i = false := by
  intro fuel
  induction fuel with
  | zero =>
    intro pos ex r hr hlt
    rw [findInstructionNotAccessing] at hr
    omega
  | succ fuel ih =>
    intro pos ex r hr hlt
    rw [findInstructionNotAccessing] at hr
    by_cases hpos : pos < block.length
    · rw [if_pos hpos] at hr
      cases hslot : slotAt block pos with
      | none =>
        rw [hslot] at hr
        obtain ⟨h1, h2, h3⟩ := ih (pos + 1) ex r hr hlt
        exact ⟨by omega, by omega, h3⟩
      | some i =>
        rw [hslot] at hr
        dsimp only at hr
        by_cases hpass : passesBasicChecks i ex = true
        · rw [if_pos hpass] at hr
          by_cases hmut : isMutexInstr i = true
          · rw [if_pos hmut] at hr
            omega
          · rw [if_neg hmut] at hr
            subst hr
            refine ⟨Nat.le_refl _, by omega, i, hslot, ?_, by simpa using hmut⟩
            have := hpass
            unfold passesBasicChecks at this
            simp only [Bool.and_eq_true] at this
            exact this.2
        · rw [if_neg hpass] at hr
          obtain ⟨h1, h2, h3⟩ := ih (pos + 1) (excludedStep i ex) r hr hlt
          exact ⟨by omega, by omega, h3⟩
    · rw [if_neg hpos] at hr
      omega

/-- The scan never returns a position beyond the block's end, provided it
starts no later than the end. -/
theorem find_le (block : Block) :
    ∀ (fuel pos : Nat) (ex : List Value), pos ≤ block.length →
      findInstructionNotAccessing block fuel pos ex ≤ block.length := by
  intro fuel
  induction fuel with
  | zero =>
    intro pos ex _
    rw [findInstructionNotAccessing]
  | succ fuel ih =>
    intro pos ex hpos
    rw [findInstructionNotAccessing]
    by_cases h : pos < block.length
    · rw [if_pos h]
      cases hslot : slotAt block pos with
      | none => exact ih (pos + 1) ex h
      | some i =>
        dsimp only
        by_cases hpass : passesBasicChecks i ex = true
        · rw [if_pos hpass]
          by_cases hmut : isMutexInstr i = true
          · rw [if_pos hmut]
          · rw [if_neg hmut]
            omega
        · rw [if_neg hpass]
          exact ih (pos + 1) (excludedStep i ex) h
    · rw [if_neg h]
      exact hpos

/-- C8: with the fixed lookahead constant as its budget, the candidate
search either reports "no candidate" (the block's end) or selects a slot
within the constant-length window after the start position and inside the
block; and an exhausted budget always reports "no candidate". -/
theorem scan_bounded (block : Block) (pos : Nat) (ex : List Value)
    (hpos : pos ≤ block.length) :
    (findInstructionNotAccessing block REPLACE_NOP_MAX_INSTRUCTIONS_TO_CHECK pos ex
        = block.length ∨
      (pos ≤ findInstructionNotAccessing block REPLACE_NOP_MAX_INSTRUCTIONS_TO_CHECK pos ex ∧
        findInstructionNotAccessing block REPLACE_NOP_MAX_INSTRUCTIONS_TO_CHECK pos ex
          < pos + REPLACE_NOP_MAX_INSTRUCTIONS_TO_CHECK ∧
        findInstructionNotAccessing block REPLACE_NOP_MAX_INSTRUCTIONS_TO_CHECK pos ex
          < block.length)) ∧
    findInstructionNotAccessing block 0 pos ex = block.length := by
  constructor
  · by_cases heq :
      findInstructionNotAccessing block REPLACE_NOP_MAX_INSTRUCTIONS_TO_CHECK pos ex
        = block.length
    · exact Or.inl heq
    · right
      have hle := find_le block REPLACE_NOP_MAX_INSTRUCTIONS_TO_CHECK pos ex hpos
      have hlt : findInstructionNotAccessing block REPLACE_NOP_MAX_INSTRUCTIONS_TO_CHECK pos ex
          < block.length := by omega
      obtain ⟨h1, h2, _⟩ := find_sel_valid block REPLACE_NOP_MAX_INSTRUCTIONS_TO_CHECK
        pos ex _ rfl hlt
      exact ⟨h1, h2, hlt⟩
  · rw [findInstructionNotAccessing]

/-- Closed witness for `scan_bounded` on a concrete two-slot block. -/
theorem scan_bounded_witness :
    (findInstructionNotAccessing
        [some (mkNop .wait_sfu),
         some { kind := .op, output := some (.localVal 7 .int32), args := [],
                condExec := false, sideEffects := false, mapsToASM := true,
                canBeCombined := true, packMode := false }]
        REPLACE_NOP_MAX_INSTRUCTIONS_TO_CHECK 0 [] = 2 ∨
      (0 ≤ findInstructionNotAccessing
          [some (mkNop .wait_sfu),
           some { kind := .op, output := some (.localVal 7 .int32), args := [],
                  condExec := false, sideEffects := false, mapsToASM := true,
                  canBeCombined := true, packMode := false }]
          REPLACE_NOP_MAX_INSTRUCTIONS_TO_CHECK 0 [] ∧
        findInstructionNotAccessing
          [some (mkNop .wait_sfu),
           some { kind := .op, output := some (.localVal 7 .int32), args := [],
                  condExec := false, sideEffects := false, mapsToASM := true,
                  canBeCombined := true, packMode := false }]
          REPLACE_NOP_MAX_INSTRUCTIONS_TO_CHECK 0 []
            < 0 + REPLACE_NOP_MAX_INSTRUCTIONS_TO_CHECK ∧
        findInstructionNotAccessing
          [some (mkNop .wait_sfu),
           some { kind := .op, output := some (.localVal 7 .int32), args := [],
                  condExec := false, sideEffects := false, mapsToASM := true,
                  canBeCombined := true, packMode := false }]
          REPLACE_NOP_MAX_INSTRUCTIONS_TO_CHECK 0 [] < 2)) ∧
    findInstructionNotAccessing
      [some (mkNop .wait_sfu),
       some { kind := .op, output := some (.localVal 7 .int32), args := [],
              condExec := false, sideEffects := false, mapsToASM := true,
              canBeCombined := true, packMode := false }]
      0 0 [] = 2 :=
  scan_bounded _ 0 [] (by norm_num)

/-- A candidate delivered by `findReplacementCandidate` (for any delay type)
holds an instruction that passed the kind checks and is not a mutex access. -/
theorem findRepl_sel {block : Block} {pos : Nat} {reason : DelayType} {r : Nat}
    (h : findReplacementCandidate block pos reason = r) (hlt : r < block.length) :
    ∃ i, slotAt block r = some i ∧ passesKindChecks i = true ∧
      isMutexInstr i = false := by
  cases reason with
  | branch_delay =>
    unfold findReplacementCandidate at h
    dsimp only at h
    omega
  | thread_end =>
    unfold findReplacementCandidate at h
    dsimp only at h
    omega
  | wait_register =>
    unfold findReplacementCandidate at h
    dsimp only at h
    by_cases hlast : findPreviousInstruction block pos = 0
    · rw [if_pos hlast] at h; omega
    · rw [if_neg hlast] at h
      cases hsl : slotAt block (findPreviousInstruction block pos) with
      | none => rw [hsl] at h; dsimp only at h; omega
      | some li =>
        rw [hsl] at h
        dsimp only at h
        cases hout : li.output with
        | none => rw [hout] at h; dsimp only at h; omega
        | some v =>
          rw [hout] at h
          dsimp only at h
          exact (find_sel_valid block _ pos _ r h hlt).2.2
  | wait_sfu =>
    unfold findReplacementCandidate at h
    exact (find_sel_valid block _ pos _ r h hlt).2.2
  | wait_tmu =>
    unfold findReplacementCandidate at h
    exact (find_sel_valid block _ pos _ r h hlt).2.2

/-- Each individual rejection predicate, extracted from a passed kind check. -/
theorem passesKindChecks_fields {i : Instruction} (h : passesKindChecks i = true) :
    i.isBranch = false ∧ i.isLabel = false ∧ i.isBarrier = false ∧
      i.isNop = false ∧ i.condExec = false ∧ i.sideEffects = false := by
  unfold passesKindChecks at h
  simp only [Bool.and_eq_true, Bool.not_eq_true'] at h
  exact ⟨h.1.1.1.1.2, h.1.1.1.2, h.1.1.2, h.1.2, h.1.1.1.1.1.1, h.1.1.1.1.1.2⟩

theorem slotAt_set_self {block : Block} {idx : Nat} (h : idx < block.length)
    (v : Option Instruction) : slotAt (block.set idx v) idx = v := by
  unfold slotAt
  rw [List.get?_eq_getElem?, List.getElem?_set_eq_of_lt _ (by simpa using h)]
  rfl

theorem slotAt_set_ne (block : Block) {idx j : Nat} (h : j ≠ idx)
    (v : Option Instruction) : slotAt (block.set idx v) j = slotAt block j := by
  unfold slotAt
  rw [List.get?_eq_getElem?, List.getElem?_set_ne (fun he => h he.symm),
    List.get?_eq_getElem?]

/-- `replaceNOPs` never changes the number of slots in the block: candidates
leave empty slots behind rather than being erased during the scan. -/
theorem replaceNOPsGo_length :
    ∀ (fuel : Nat) (block : Block) (idx : Nat),
      (replaceNOPsGo fuel block idx).length = block.length := by
  intro fuel
  induction fuel with
  | zero => intro block idx; rfl
  | succ fuel ih =>
    intro block idx
    rw [replaceNOPsGo]
    by_cases hidx : idx < block.length
    · rw [if_pos hidx]
      cases hslot : slotAt block idx with
      | none => exact ih block (idx + 1)
      | some i =>
        dsimp only
        cases hkind : i.kind with
        | nop d =>
          try dsimp only
          by_cases hse : i.sideEffects = true
          · rw [if_pos hse]; exact ih block (idx + 1)
          · rw [if_neg hse]
            try dsimp only
            by_cases hr : findReplacementCandidate block idx d < block.length
            · rw [if_pos hr]
              cases hcand : slotAt block (findReplacementCandidate block idx d) with
              | none => exact ih block (idx + 1)
              | some cand =>
                dsimp only
                rw [ih]
                simp
            · rw [if_neg hr]; exact ih block (idx + 1)
        | branch => exact ih block (idx + 1)
        | label => exact ih block (idx + 1)
        | barrier => exact ih block (idx + 1)
        | rotation => exact ih block (idx + 1)
        | move => exact ih block (idx + 1)
        | op => exact ih block (idx + 1)
    · rw [if_neg hidx]

/-- C2: a candidate returned by the NOP-replacement search is never a branch,
block-start label, memory barrier, another placeholder, or an instruction
with conditional execution or side effects; consequently every instruction
`replaceNOPs` leaves in a slot it did not occupy before satisfies the same
predicates, so the pass never relocates any such instruction. -/
theorem candidate_never_forbidden :
    (∀ (block : Block) (pos : Nat) (reason : DelayType) (r : Nat),
      findReplacementCandidate block pos reason = r → r < block.length →
      ∃ i, slotAt block r = some i ∧ i.isBranch = false ∧ i.isLabel = false ∧
        i.isBarrier = false ∧ i.isNop = false ∧ i.condExec = false ∧
        i.sideEffects = false) ∧
    (∀ (fuel : Nat) (block : Block) (idx j : Nat) (i' : Instruction),
      slotAt (replaceNOPsGo fuel block idx) j = some i' →
      slotAt block j = some i' ∨
        (i'.isBranch = false ∧ i'.isLabel = false ∧ i'.isBarrier = false ∧
          i'.isNop = false ∧ i'.condExec = false ∧ i'.sideEffects = false)) := by
  constructor
  · intro block pos reason r h hlt
    obtain ⟨i, hslot, hkind, _⟩ := findRepl_sel h hlt
    exact ⟨i, hslot, passesKindChecks_fields hkind⟩
  · intro fuel
    induction fuel with
    | zero =>
      intro block idx j i' h
      exact Or.inl h
    | succ fuel ih =>
      intro block idx j i' h
      rw [replaceNOPsGo] at h
      by_cases hidx : idx < block.length
      · rw [if_pos hidx] at h
        cases hslot : slotAt block idx with
        | none =>
          rw [hslot] at h
          exact ih block (idx + 1) j i' h
        | some i =>
          rw [hslot] at h
          dsimp only at h
          cases hkind : i.kind with
          | nop d =>
            rw [hkind] at h
            dsimp only at h
            by_cases hse : i.sideEffects = true
            · rw [if_pos hse] at h
              exact ih block (idx + 1) j i' h
            · rw [if_neg hse] at h
              try dsimp only at h
              by_cases hr : findReplacementCandidate block idx d < block.length
              · rw [if_pos hr] at h
                cases hcand : slotAt block (findReplacementCandidate block idx d) with
                | none =>
                  rw [hcand] at h
                  exact ih block (idx + 1) j i' h
                | some cand =>
                  rw [hcand] at h
                  dsimp only at h
                  obtain ⟨c, hc, hck, _⟩ := findRepl_sel rfl hr
                  rw [hcand] at hc
                  cases hc
                  rcases ih _ (idx + 1) j i' h with hmid | hpred
                  · by_cases hj : j = idx
                    · subst hj
                      rw [slotAt_set_self (by simpa using hidx) _] at hmid
                      cases hmid
                      have hfields := passesKindChecks_fields hck
                      unfold installFlag
                      by_cases hcb : i.canBeCombined = true
                      · rw [if_pos hcb]
                        exact Or.inr hfields
                      · rw [if_neg hcb]
                        refine Or.inr ?_
                        simpa [Instruction.isBranch, Instruction.isLabel,
                          Instruction.isBarrier, Instruction.isNop] using hfields
                    · rw [slotAt_set_ne _ hj _] at hmid
                      by_cases hjr : j = findReplacementCandidate block idx d
                      · subst hjr
                        rw [slotAt_set_self hr _] at hmid
                        cases hmid
                      · rw [slotAt_set_ne _ hjr _] at hmid
                        exact Or.inl hmid
                  · exact Or.inr hpred
              · rw [if_neg hr] at h
                exact ih block (idx + 1) j i' h
          | branch => rw [hkind] at h; exact ih block (idx + 1) j i' h
          | label => rw [hkind] at h; exact ih block (idx + 1) j i' h
          | barrier => rw [hkind] at h; exact ih block (idx + 1) j i' h
          | rotation => rw [hkind] at h; exact ih block (idx + 1) j i' h
          | move => rw [hkind] at h; exact ih block (idx + 1) j i' h
          | op => rw [hkind] at h; exact ih block (idx + 1) j i' h
      · rw [if_neg hidx] at h
        exact Or.inl h

/-- Closed witness for `candidate_never_forbidden` at a concrete input. -/
theorem candidate_never_forbidden_witness :
    ∃ i, slotAt
        [some (mkNop .wait_sfu),
         some { kind := .op, output := some (.localVal 7 .int32), args := [],
                condExec := false, sideEffects := false, mapsToASM := true,
                canBeCombined := true, packMode := false }] 1 = some i ∧
      i.isBranch = false ∧ i.isLabel = false ∧ i.isBarrier = false ∧
      i.isNop = false ∧ i.condExec = false ∧ i.sideEffects = false :=
  candidate_never_forbidden.1
    [some (mkNop .wait_sfu),
     some { kind := .op, output := some (.localVal 7 .int32), args := [],
            condExec := false, sideEffects := false, mapsToASM := true,
            canBeCombined := true, packMode := false }] 0 .wait_sfu 1
    (by decide) (by decide)

/-- A side-effect-free ALU instruction writing plain local 7, used as a
concrete candidate in witnesses. -/
def sampleOp : Instruction :=
  { kind := .op, output := some (.localVal 7 .int32), args := [],
    condExec := false, sideEffects := false, mapsToASM := true,
    canBeCombined := true, packMode := false }

/-- A mutex-release-shaped instruction: result is the mutex register, and it
carries the side-effect flag such an access has. -/
def sampleMutexRel : Instruction :=
  { kind := .op, output := some (.reg .mutex .int32), args := [],
    condExec := false, sideEffects := true, mapsToASM := true,
    canBeCombined := true, packMode := false }

/-- A side-effect-free SFU-wait placeholder, used in witnesses. -/
def sampleNop : Instruction := mkNop .wait_sfu

/-- C9 (also the install step of C2's pass): when `replaceNOPs` finds a
candidate for a side-effect-free placeholder, it installs the candidate at
the placeholder's slot — with fusion forced off when the placeholder
disallowed it and the candidate's own flag kept otherwise — resets the
candidate's original slot to empty without erasing it (the slot count never
changes during the scan), and the empty slots are compacted out only by the
whole pass's final cleanup. -/
theorem replaceNOP_install_spec (block : Block) (fuel idx : Nat)
    (i cand : Instruction) (d : DelayType) (r : Nat)
    (hslot : slotAt block idx = some i) (hkind : i.kind = .nop d)
    (hse : i.sideEffects = false)
    (hfind : findReplacementCandidate block idx d = r) (hr : r < block.length)
    (hcand : slotAt block r = some cand) :
    replaceNOPsGo (fuel + 1) block idx =
        replaceNOPsGo fuel ((block.set r none).set idx (some (installFlag i cand)))
          (idx + 1) ∧
      (i.canBeCombined = false → (installFlag i cand).canBeCombined = false) ∧
      (i.canBeCombined = true → installFlag i cand = cand) ∧
      r ≠ idx ∧
      slotAt ((block.set r none).set idx (some (installFlag i cand))) r = none ∧
      (∀ (k : Nat) (b : Block) (j : Nat), (replaceNOPsGo k b j).length = b.length) ∧
      (∀ blocks : List Block,
        reorderWithinBasicBlocks blocks =
          (blocks.map replaceNOPsBlock).map cleanEmptyInstructions) := by
  have hrid : r ≠ idx := by
    intro he
    subst he
    rw [hslot] at hcand
    injection hcand with hcand
    obtain ⟨c, hc, hck, _⟩ := findRepl_sel hfind hr
    rw [hslot] at hc
    injection hc with hc
    have hnop := (passesKindChecks_fields hck).2.2.2.1
    rw [← hc] at hnop
    simp [Instruction.isNop, hkind] at hnop
  refine ⟨?_, ?_, ?_, hrid, ?_, replaceNOPsGo_length, fun _ => rfl⟩
  · rw [replaceNOPsGo]
    rw [if_pos (slotAt_some_lt hslot)]
    rw [hslot]
    dsimp only
    rw [hkind]
    dsimp only
    rw [if_neg (by rw [hse]; exact Bool.false_ne_true)]
    try dsimp only
    rw [hfind, if_pos hr, hcand]
  · intro hcb
    unfold installFlag
    rw [hcb]
    simp
  · intro hcb
    unfold installFlag
    rw [hcb]
    simp
  · rw [slotAt_set_ne _ hrid _]
    exact slotAt_set_self hr none

/-- Closed witness for `replaceNOP_install_spec` at a concrete input. -/
theorem replaceNOP_install_spec_witness :
    replaceNOPsGo (1 + 1) [some sampleNop, some sampleOp] 0 =
        replaceNOPsGo 1
          ((([some sampleNop, some sampleOp] : Block).set 1 none).set 0
            (some (installFlag sampleNop sampleOp))) (0 + 1) ∧
      (sampleNop.canBeCombined = false →
        (installFlag sampleNop sampleOp).canBeCombined = false) ∧
      (sampleNop.canBeCombined = true → installFlag sampleNop sampleOp = sampleOp) ∧
      (1 : Nat) ≠ 0 ∧
      slotAt ((([some sampleNop, some sampleOp] : Block).set 1 none).set 0
        (some (installFlag sampleNop sampleOp))) 1 = none ∧
      (∀ (k : Nat) (b : Block) (j : Nat), (replaceNOPsGo k b j).length = b.length) ∧
      (∀ blocks : List Block,
        reorderWithinBasicBlocks blocks =
          (blocks.map replaceNOPsBlock).map cleanEmptyInstructions) :=
  replaceNOP_install_spec [some sampleNop, some sampleOp] 1 0 sampleNop sampleOp
    .wait_sfu 1 (by decide) (by decide) (by decide) (by decide) (by decide) (by decide)

/-- C1 (amended): if the bounded scan selects a candidate at position `r`,
then no slot it visited on the way — from the start position up to and
including `r` — holds an instruction that both passes the checks preceding
the mutex tests (with respect to the exclusion set as grown so far) and has
the mutex register as its result or first or second argument; equivalently,
once the scan reaches such an instruction, no candidate at or after it is
ever returned and the whole attempt yields "no candidate". -/
theorem mutex_reached_terminates (block : Block) (fuel pos : Nat)
    (ex : List Value) (r : Nat)
    (hfind : findInstructionNotAccessing block fuel pos ex = r)
    (hlt : r < block.length) :
    ∀ (k : Nat), pos + k ≤ r → ∀ (i : Instruction), slotAt block (pos + k) = some i →
      ¬(passesBasicChecks i (excludedAfter block k pos ex) = true ∧
        isMutexInstr i = true) := by
  induction fuel generalizing pos ex with
  | zero =>
    rw [findInstructionNotAccessing] at hfind
    omega
  | succ fuel ih =>
    intro k hk i hi
    rw [findInstructionNotAccessing] at hfind
    by_cases hpos : pos < block.length
    · rw [if_pos hpos] at hfind
      cases hslot : slotAt block pos with
      | none =>
        rw [hslot] at hfind
        cases k with
        | zero =>
          rw [Nat.add_zero, hslot] at hi
          cases hi
        | succ m =>
          rw [excludedAfter, hslot]
          have hi' : slotAt block (pos + 1 + m) = some i := by
            rw [show pos + 1 + m = pos + (m + 1) from by omega]
            exact hi
          exact ih (pos + 1) ex hfind m (by omega) i hi'
      | some j =>
        rw [hslot] at hfind
        dsimp only at hfind
        by_cases hpass : passesBasicChecks j ex = true
        · rw [if_pos hpass] at hfind
          by_cases hmut : isMutexInstr j = true
          · rw [if_pos hmut] at hfind
            omega
          · rw [if_neg hmut] at hfind
            have hk0 : k = 0 := by omega
            subst hk0
            rw [Nat.add_zero, hslot] at hi
            injection hi with hi
            subst hi
            intro hcontra
            exact hmut hcontra.2
        · rw [if_neg hpass] at hfind
          cases k with
          | zero =>
            rw [Nat.add_zero, hslot] at hi
            injection hi with hi
            subst hi
            intro hcontra
            exact hpass (by simpa [excludedAfter] using hcontra.1)
          | succ m =>
            rw [excludedAfter, hslot]
            dsimp only
            rw [if_neg hpass]
            have hi' : slotAt block (pos + 1 + m) = some i := by
              rw [show pos + 1 + m = pos + (m + 1) from by omega]
              exact hi
            exact ih (pos + 1) (excludedStep j ex) hfind m (by omega) i hi'
    · rw [if_neg hpos] at hfind
      omega

/-- Closed witness for `mutex_reached_terminates` at a concrete input. -/
theorem mutex_reached_terminates_witness :
    ¬(passesBasicChecks sampleOp (excludedAfter [some sampleOp] 0 0 []) = true ∧
      isMutexInstr sampleOp = true) :=
  mutex_reached_terminates [some sampleOp] 16 0 [] 0 (by decide) (by decide) 0
    (by decide) sampleOp (by decide)

/-- Counterexample to C1 as stated: the scan reaches (indeed starts at) an
instruction whose result is the mutex register, yet — because that
instruction also carries a side effect and is therefore rejected by an
earlier check, never evaluating the guarded mutex test of lines 85-91 — the
search does not terminate with "no candidate": it skips the mutex access and
selects the very next instruction. -/
theorem mutex_scan_counterexample :
    isMutexInstr sampleMutexRel = true ∧
      slotAt [some sampleMutexRel, some sampleOp] 0 = some sampleMutexRel ∧
      findInstructionNotAccessing [some sampleMutexRel, some sampleOp]
        REPLACE_NOP_MAX_INSTRUCTIONS_TO_CHECK 0 [] = 1 ∧
      (1 : Nat) ≠ ([some sampleMutexRel, some sampleOp] : Block).length := by
  refine ⟨by decide, by decide, by decide, by decide⟩

/-! ## Read-after-write splitting (`splitReadAfterWrites`, lines 250-289) and
rotation hoisting (`moveRotationSourcesToAccumulators`, lines 309-337) -/

/-- Modelled from the spec: the "accumulator-safe window" of instructions a
local may span while staying eligible for an accumulator; the constant lives
outside the core sources, any small positive value realizes the contract. -/
def accumulatorThreshold : Nat := 4

/-- Whether an instruction touches the local at all, as argument or result
(the uses `isLocallyLimited` must confine). -/
def usesLocal (i : Instruction) (l : Nat) : Bool :=
  i.readsLocalId l ||
    (match i.output with
     | some v => v.hasLocal l
     | none => false)

/-- Modelled from the spec: `BasicBlock::isLocallyLimited` (declared in the
block header, implementation not among the core sources) — whether the
local's entire usage range is confined to the straight-line span of at most
the accumulator-safe window of instructions starting at the given position. -/
def isLocallyLimited (block : Block) (pos : Nat) (l : Nat) : Bool :=
  (List.range block.length).all fun q =>
    match slotAt block q with
    | some i =>
      !usesLocal i l || (decide (pos ≤ q) && decide (q ≤ pos + accumulatorThreshold))
    | none => true

/-- One method, flattened: `walkAllInstructions` visits every slot of every
block in order, block-start labels included, so a method is modelled as a
single slot sequence in that traversal order. -/
abbrev MethodSlots := List (Option Instruction)

/-- The loop of `splitReadAfterWrites` (lines 259-288), walking from `pos`
with the last ASM-mapped instruction's position and the Local it wrote (if
any) as state: a reader of that Local gets a `WAIT_REGISTER` placeholder
emplaced immediately after the writer when the writer used pack mode, the
reader is a vector rotation, or the write is not locally limited; only
ASM-mapped instructions update the tracking state. One fuel unit is spent per
visited slot (each visit advances the walker past one more original slot), so
the original length bounds the loop. -/
def splitRAWGo : Nat → MethodSlots → Nat → Nat → Option Nat → MethodSlots
  | 0, slots, _, _, _ => slots
  | fuel + 1, slots, pos, lastPos, lastW =>
    if pos < slots.length then
      match slotAt slots pos with
      | none => splitRAWGo fuel slots (pos + 1) lastPos lastW
      | some i =>
        let doSplit : Bool :=
          match lastW with
          | some x =>
            i.readsLocalId x &&
              ((match slotAt slots lastPos with
                | some li => li.packMode
                | none => false) ||
                i.isRotation || !isLocallyLimited slots lastPos x)
          | none => false
        let slots' :=
          if doSplit then slots.insertIdx (lastPos + 1) (some (mkNop .wait_register))
          else slots
        let pos' := if doSplit then pos + 1 else pos
        if i.mapsToASM then splitRAWGo fuel slots' (pos' + 1) pos' i.outputLocal
        else splitRAWGo fuel slots' (pos' + 1) lastPos lastW
    else slots

/-- `splitReadAfterWrites` (lines 250-289): start at the second slot, with
the first slot as the initial "last instruction" and nothing yet written. -/
def splitReadAfterWrites (slots : MethodSlots) : MethodSlots :=
  splitRAWGo slots.length slots 1 0 none

/-- The backward scan of `moveRotationSourcesToAccumulators` (lines 315-321)
for the instruction writing `loc`, from position `p` down; position 0 is the
block-start label, returned when no writer exists. -/
def findRotWriter (block : Block) (loc : Nat) : Nat → Nat
  | 0 => 0
  | p + 1 =>
    match slotAt block (p + 1) with
    | some i => if i.outputLocal = some loc then p + 1 else findRotWriter block loc p
    | none => findRotWriter block loc p

/-- The backward walk of lines 325-328: starting from the slot before the
rotation, move before every `Nop` immediately preceding the current
position, landing on the start of the contiguous placeholder run. -/
def findMapperPos (block : Block) : Nat → Nat
  | 0 => 0
  | m + 1 =>
    match slotAt block m with
    | some i => if i.isNop then findMapperPos block m else m + 1
    | none => m + 1

/-- `IntermediateInstruction::replaceLocal(loc, tmp, READER)`: rewrite every
argument referencing `loc` to reference `tmpId` instead (same type). -/
def Instruction.replaceLocalReader (i : Instruction) (loc tmpId : Nat) : Instruction :=
  { i with
    args := i.args.map fun v =>
      match v with
      | .localVal l t => if l = loc then .localVal tmpId t else v
      | _ => v }

/-- `moveRotationSourcesToAccumulators` (lines 309-337): for a vector
rotation reading a Local with no writer earlier in this block or a
non-locally-limited writer-to-use range, emplace a copy of the source into
the fresh temporary `freshId` (standing for `method.addNewLocal`'s uniquely
named local) before the placeholder run preceding the rotation, rewrite the
rotation to read the temporary, and return the cursor at the writer
position; otherwise leave the block unchanged and return the input cursor. -/
def moveRotationSourcesToAccumulators (block : Block) (freshId : Nat) (it : Nat) :
    Block × Nat :=
  match slotAt block it with
  | some i =>
    if i.isRotation then
      match i.getSource with
      | some (Value.localVal loc t) =>
        let writer := findRotWriter block loc (it - 1)
        if writer = 0 || !isLocallyLimited block writer loc then
          let m := findMapperPos block (it - 1)
          let block1 := block.insertIdx m (some (mkMove freshId t loc))
          let block2 := block1.set (it + 1) (some (i.replaceLocalReader loc freshId))
          (block2, writer)
        else (block, it)
      | _ => (block, it)
    else (block, it)
  | none => (block, it)

/-- C3: in a method consisting of a block label, a write to local `x` and
then an instruction reading `x` — so the write's live range is confined to
those two adjacent instructions — `splitReadAfterWrites` inserts nothing
when the reader is a plain (non-rotation) instruction and the writer did not
pack its result; but when the reader is a vector rotation, a `WAIT_REGISTER`
placeholder is inserted immediately after the write, with no locality or
label premises at all. -/
theorem splitRAW_insertion_spec (lab w r : Instruction) (x : Nat) (t : VType)
    (hwasm : w.mapsToASM = true) (hout : w.output = some (.localVal x t))
    (hread : r.readsLocalId x = true) :
    ((lab.mapsToASM = false ∧ usesLocal lab x = false ∧ w.packMode = false ∧
        r.isRotation = false) →
      splitReadAfterWrites [some lab, some w, some r] = [some lab, some w, some r]) ∧
    (r.isRotation = true →
      splitReadAfterWrites [some lab, some w, some r] =
        [some lab, some w, some (mkNop .wait_register), some r]) := by
  have houtl : w.outputLocal = some x := by
    unfold Instruction.outputLocal
    rw [hout]
  constructor
  · rintro ⟨hlab, hlabuse, hpack, hrot⟩
    have hlim : isLocallyLimited [some lab, some w, some r] 1 x = true := by
      unfold isLocallyLimited
      rw [show (List.range ([some lab, some w, some r] : MethodSlots).length) =
        [0, 1, 2] from rfl]
      simp [slotAt, hlabuse, accumulatorThreshold]
    show splitRAWGo (2 + 1) [some lab, some w, some r] 1 0 none = _
    rw [splitRAWGo]
    rw [if_pos (by norm_num)]
    rw [show slotAt [some lab, some w, some r] 1 = some w from rfl]
    dsimp only
    rw [if_pos hwasm, houtl]
    show splitRAWGo (1 + 1) [some lab, some w, some r] 2 1 (some x) = _
    rw [splitRAWGo]
    rw [if_pos (by norm_num)]
    rw [show slotAt [some lab, some w, some r] 2 = some r from rfl]
    dsimp only
    rw [show slotAt [some lab, some w, some r] 1 = some w from rfl]
    dsimp only
    rw [hread, hpack, hrot, hlim]
    simp only [Bool.true_and, Bool.false_or, Bool.not_true, Bool.or_false,
      Bool.false_eq_true, if_false]
    by_cases hm : r.mapsToASM = true
    · rw [if_pos hm]
      show splitRAWGo (0 + 1) [some lab, some w, some r] 3 2 r.outputLocal = _
      rw [splitRAWGo]
      rw [if_neg (by norm_num)]
    · rw [if_neg hm]
      show splitRAWGo (0 + 1) [some lab, some w, some r] 3 1 (some x) = _
      rw [splitRAWGo]
      rw [if_neg (by norm_num)]
  · intro hrot
    show splitRAWGo (2 + 1) [some lab, some w, some r] 1 0 none = _
    rw [splitRAWGo]
    rw [if_pos (by norm_num)]
    rw [show slotAt [some lab, some w, some r] 1 = some w from rfl]
    dsimp only
    rw [if_pos hwasm, houtl]
    show splitRAWGo (1 + 1) [some lab, some w, some r] 2 1 (some x) = _
    rw [splitRAWGo]
    rw [if_pos (by norm_num)]
    rw [show slotAt [some lab, some w, some r] 2 = some r from rfl]
    dsimp only
    rw [show slotAt [some lab, some w, some r] 1 = some w from rfl]
    dsimp only
    rw [hread, hrot]
    simp only [Bool.true_or, Bool.or_true, Bool.true_and, if_true]
    rw [show (([some lab, some w, some r] : MethodSlots).insertIdx (1 + 1)
      (some (mkNop .wait_register))) =
        [some lab, some w, some (mkNop .wait_register), some r] from rfl]
    by_cases hm : r.mapsToASM = true
    · rw [if_pos hm]
      show splitRAWGo (0 + 1)
        [some lab, some w, some (mkNop .wait_register), some r] 4 3 r.outputLocal = _
      rw [splitRAWGo]
      rw [if_neg (by norm_num)]
    · rw [if_neg hm]
      show splitRAWGo (0 + 1)
        [some lab, some w, some (mkNop .wait_register), some r] 4 1 (some x) = _
      rw [splitRAWGo]
      rw [if_neg (by norm_num)]

/-- A block-start label instruction for witnesses (not ASM-mapped, writes the
label local 0). -/
def sampleLabel : Instruction :=
  { kind := .label, output := some (.localVal 0 .int32), args := [],
    condExec := false, sideEffects := false, mapsToASM := false,
    canBeCombined := false, packMode := false }

/-- A writer of local 1 for witnesses. -/
def sampleWriter : Instruction :=
  { kind := .op, output := some (.localVal 1 .int32), args := [],
    condExec := false, sideEffects := false, mapsToASM := true,
    canBeCombined := true, packMode := false }

/-- A plain reader of local 1 for witnesses. -/
def sampleReader : Instruction :=
  { kind := .op, output := some (.localVal 2 .int32), args := [.localVal 1 .int32],
    condExec := false, sideEffects := false, mapsToASM := true,
    canBeCombined := true, packMode := false }

/-- Closed witness for `splitRAW_insertion_spec` at concrete instructions. -/
theorem splitRAW_insertion_spec_witness :
    ((sampleLabel.mapsToASM = false ∧ usesLocal sampleLabel 1 = false ∧
        sampleWriter.packMode = false ∧ sampleReader.isRotation = false) →
      splitReadAfterWrites [some sampleLabel, some sampleWriter, some sampleReader] =
        [some sampleLabel, some sampleWriter, some sampleReader]) ∧
    (sampleReader.isRotation = true →
      splitReadAfterWrites [some sampleLabel, some sampleWriter, some sampleReader] =
        [some sampleLabel, some sampleWriter, some (mkNop .wait_register),
         some sampleReader]) :=
  splitRAW_insertion_spec sampleLabel sampleWriter sampleReader 1 .int32
    (by decide) (by decide) (by decide)

/-- Number of argument positions referencing local `l` — the instruction's
use count for `l` as recorded in the registry via its argument uses. -/
def localCount (args : List Value) (l : Nat) : Nat :=
  (args.filter fun v => v.hasLocal l).length

/-- Whether local `l` appears nowhere in the block — the freshness
`Method::addNewLocal` guarantees for its uniquely named temporary. -/
def freshIn (block : Block) (l : Nat) : Bool :=
  block.all fun s =>
    match s with
    | some j => !usesLocal j l
    | none => true

theorem freshIn_spec {block : Block} {l q : Nat} {j : Instruction}
    (hf : freshIn block l = true) (hs : slotAt block q = some j) :
    usesLocal j l = false := by
  have hmem : some j ∈ block := by
    unfold slotAt at hs
    cases hq : block.get? q with
    | none => rw [hq] at hs; cases hs
    | some s =>
      rw [hq] at hs
      cases hs
      exact List.get?_mem hq
  have := (List.all_eq_true.mp hf) (some j) hmem
  simpa using this

theorem localCount_pos_reads {args : List Value} {l : Nat}
    (h : 0 < localCount args l) : args.any (fun a => a.hasLocal l) = true := by
  unfold localCount at h
  cases hfil : args.filter (fun a => a.hasLocal l) with
  | nil => rw [hfil] at h; simp at h
  | cons v rest =>
    have hv : v ∈ args.filter fun a => a.hasLocal l := by rw [hfil]; simp
    have hm := List.mem_filter.mp hv
    exact List.any_eq_true.mpr ⟨v, hm.1, hm.2⟩

theorem replaceArgs_count_old (args : List Value) (loc tmp : Nat) (hne : tmp ≠ loc) :
    localCount (args.map fun v =>
      match v with
      | Value.localVal l t => if l = loc then Value.localVal tmp t else v
      | _ => v) loc = 0 := by
  induction args with
  | nil => rfl
  | cons v rest ih =>
    unfold localCount at ih ⊢
    rw [List.map_cons]
    cases v with
    | localVal l t =>
      dsimp only
      by_cases hl : l = loc
      · rw [if_pos hl]
        simpa [Value.hasLocal, hne] using ih
      · rw [if_neg hl]
        simpa [Value.hasLocal, hl] using ih
    | reg a b => simpa [Value.hasLocal] using ih
    | lit a b => simpa [Value.hasLocal] using ih

theorem replaceArgs_count_new (args : List Value) (loc tmp : Nat) (hne : tmp ≠ loc) :
    localCount (args.map fun v =>
      match v with
      | Value.localVal l t => if l = loc then Value.localVal tmp t else v
      | _ => v) tmp = localCount args loc + localCount args tmp := by
  induction args with
  | nil => rfl
  | cons v rest ih =>
    unfold localCount at ih ⊢
    rw [List.map_cons]
    cases v with
    | localVal l t =>
      dsimp only
      by_cases hl : l = loc
      · rw [if_pos hl]
        subst hl
        simp only [List.filter_cons]
        rw [if_pos (show (Value.localVal tmp t).hasLocal tmp = true from by
              simp [Value.hasLocal]),
            if_pos (show (Value.localVal l t).hasLocal l = true from by
              simp [Value.hasLocal]),
            if_neg (show ¬(Value.localVal l t).hasLocal tmp = true from by
              simp only [Value.hasLocal]
              simpa using fun h => hne h.symm)]
        simp only [List.length_cons]
        omega
      · rw [if_neg hl]
        simp only [List.filter_cons]
        by_cases hlt : l = tmp
        · rw [if_pos (show (Value.localVal l t).hasLocal tmp = true from by
                simp [Value.hasLocal, hlt]),
              if_neg (show ¬(Value.localVal l t).hasLocal loc = true from by
                simp [Value.hasLocal, hl]),
              if_pos (show (Value.localVal l t).hasLocal tmp = true from by
                simp [Value.hasLocal, hlt])]
          simp only [List.length_cons]
          omega
        · rw [if_neg (show ¬(Value.localVal l t).hasLocal tmp = true from by
                simp [Value.hasLocal, hlt]),
              if_neg (show ¬(Value.localVal l t).hasLocal loc = true from by
                simp [Value.hasLocal, hl]),
              if_neg (show ¬(Value.localVal l t).hasLocal tmp = true from by
                simp [Value.hasLocal, hlt])]
          exact ih
    | reg a b =>
      simpa [List.filter_cons, Value.hasLocal] using ih
    | lit a b =>
      simpa [List.filter_cons, Value.hasLocal] using ih

theorem findMapperPos_spec (block : Block) :
    ∀ p : Nat, findMapperPos block p ≤ p ∧
      (∀ q, findMapperPos block p ≤ q → q < p →
        ∃ nI, slotAt block q = some nI ∧ nI.isNop = true) ∧
      (findMapperPos block p = 0 ∨
        ¬∃ nI, slotAt block (findMapperPos block p - 1) = some nI ∧ nI.isNop = true) := by
  intro p
  induction p with
  | zero =>
    refine ⟨Nat.le_refl _, ?_, Or.inl rfl⟩
    intro q h1 h2
    omega
  | succ m ih =>
    rw [findMapperPos]
    cases hslot : slotAt block m with
    | none =>
      dsimp only
      refine ⟨Nat.le_refl _, ?_, Or.inr ?_⟩
      · intro q h1 h2
        omega
      · intro ⟨nI, hn, _⟩
        simp only [Nat.add_sub_cancel] at hn
        rw [hslot] at hn
        cases hn
    | some i =>
      dsimp only
      by_cases hnop : i.isNop = true
      · rw [if_pos hnop]
        obtain ⟨ih1, ih2, ih3⟩ := ih
        refine ⟨by omega, ?_, ih3⟩
        intro q h1 h2
        by_cases hq : q < m
        · exact ih2 q h1 hq
        · have : q = m := by omega
          subst this
          exact ⟨i, hslot, hnop⟩
      · rw [if_neg hnop]
        refine ⟨Nat.le_refl _, ?_, Or.inr ?_⟩
        · intro q h1 h2
          omega
        · intro ⟨nI, hn, hn2⟩
          simp only [Nat.add_sub_cancel] at hn
          rw [hslot] at hn
          injection hn with hn
          subst hn
          exact hnop hn2

/-- C7: for a vector rotation reading local `loc` that has no writer earlier
in the block (the backward scan lands on the start) or whose writer-to-use
range is not locally limited, and whose slot is preceded by a placeholder:
the hoisting step inserts a copy of `loc` into the fresh temporary at the
start of the contiguous placeholder run preceding the rotation, rewrites the
rotation (now one slot later) to read the temporary — its read count for
`loc` dropping to zero and for the temporary becoming one — and returns the
cursor at the backward scan's writer position. -/
theorem rotation_hoist_spec (block : Block) (i : Instruction)
    (it loc freshId : Nat) (t : VType)
    (hslot : slotAt block it = some i) (hrot : i.isRotation = true)
    (hsrc : i.getSource = some (.localVal loc t))
    (hcond : findRotWriter block loc (it - 1) = 0 ∨
      isLocallyLimited block (findRotWriter block loc (it - 1)) loc = false)
    (hcount : localCount i.args loc = 1)
    (hfresh : freshIn block freshId = true)
    (hnopPrev : ∃ nI, slotAt block (it - 1) = some nI ∧ nI.isNop = true)
    (hpos : 1 ≤ it) :
    moveRotationSourcesToAccumulators block freshId it =
        ((block.insertIdx (findMapperPos block (it - 1))
            (some (mkMove freshId t loc))).set (it + 1)
          (some (i.replaceLocalReader loc freshId)),
         findRotWriter block loc (it - 1)) ∧
      slotAt ((block.insertIdx (findMapperPos block (it - 1))
          (some (mkMove freshId t loc))).set (it + 1)
        (some (i.replaceLocalReader loc freshId))) (it + 1) =
        some (i.replaceLocalReader loc freshId) ∧
      localCount (i.replaceLocalReader loc freshId).args loc = 0 ∧
      localCount (i.replaceLocalReader loc freshId).args freshId = 1 ∧
      (i.replaceLocalReader loc freshId).getSource =
        some (.localVal freshId t) ∧
      (∀ q, findMapperPos block (it - 1) ≤ q → q < it →
        ∃ nI, slotAt block q = some nI ∧ nI.isNop = true) ∧
      (findMapperPos block (it - 1) = 0 ∨
        ¬∃ nI, slotAt block (findMapperPos block (it - 1) - 1) = some nI ∧
          nI.isNop = true) := by
  have hitlen : it < block.length := slotAt_some_lt hslot
  obtain ⟨hm_le, hm_run, hm_first⟩ := findMapperPos_spec block (it - 1)
  have husei : usesLocal i freshId = false := freshIn_spec hfresh hslot
  have hne : freshId ≠ loc := by
    intro he
    subst he
    have hpos' : 0 < localCount i.args freshId := by omega
    have hany := localCount_pos_reads hpos'
    have : usesLocal i freshId = true := by
      unfold usesLocal Instruction.readsLocalId
      rw [hany]
      simp
    rw [husei] at this
    cases this
  have h0 : localCount i.args freshId = 0 := by
    by_contra hne0
    have hpos' : 0 < localCount i.args freshId := Nat.pos_of_ne_zero hne0
    have hany := localCount_pos_reads hpos'
    have : usesLocal i freshId = true := by
      unfold usesLocal Instruction.readsLocalId
      rw [hany]
      simp
    rw [husei] at this
    cases this
  refine ⟨?_, ?_, ?_, ?_, ?_, ?_, hm_first⟩
  · unfold moveRotationSourcesToAccumulators
    rw [hslot]
    dsimp only
    rw [if_pos hrot, hsrc]
    dsimp only
    have hcondb : (decide (findRotWriter block loc (it - 1) = 0) ||
        !isLocallyLimited block (findRotWriter block loc (it - 1)) loc) = true := by
      rcases hcond with h | h
      · simp [h]
      · simp [h]
    rw [if_pos hcondb]
  · have hmlen : ((block.insertIdx (findMapperPos block (it - 1))
        (some (mkMove freshId t loc)))).length = block.length + 1 :=
      List.length_insertIdx _ _ (by omega)
    exact slotAt_set_self (by omega) _
  · exact replaceArgs_count_old i.args loc freshId hne
  · have := replaceArgs_count_new i.args loc freshId hne
    show localCount (i.args.map _) freshId = 1
    rw [this, hcount, h0]
  · cases hargs : i.args with
    | nil =>
      unfold Instruction.getSource at hsrc
      rw [hargs] at hsrc
      cases hsrc
    | cons a rest =>
      have ha : a = Value.localVal loc t := by
        unfold Instruction.getSource at hsrc
        rw [hargs] at hsrc
        simp only [List.get?] at hsrc
        injection hsrc
      subst ha
      unfold Instruction.getSource Instruction.replaceLocalReader
      try dsimp only
      rw [hargs]
      simp only [List.map_cons, List.get?]
      simp
  · intro q h1 h2
    by_cases hq : q < it - 1
    · exact hm_run q h1 hq
    · have : q = it - 1 := by omega
      subst this
      exact hnopPrev

/-- A vector rotation reading local 5 (with a literal offset), for
witnesses. -/
def sampleRot : Instruction :=
  { kind := .rotation, output := some (.localVal 2 .int32),
    args := [.localVal 5 .int32, .lit 0 .int32], condExec := false,
    sideEffects := false, mapsToASM := true, canBeCombined := false,
    packMode := false }

/-- Closed witness for `rotation_hoist_spec` at a concrete block. -/
theorem rotation_hoist_spec_witness :
    moveRotationSourcesToAccumulators
        [some sampleLabel, some sampleWriter, some (mkNop .wait_register),
         some sampleRot] 9 3 =
        ((([some sampleLabel, some sampleWriter, some (mkNop .wait_register),
            some sampleRot] : Block).insertIdx
            (findMapperPos [some sampleLabel, some sampleWriter,
              some (mkNop .wait_register), some sampleRot] (3 - 1))
            (some (mkMove 9 .int32 5))).set (3 + 1)
          (some (sampleRot.replaceLocalReader 5 9)),
         findRotWriter [some sampleLabel, some sampleWriter,
           some (mkNop .wait_register), some sampleRot] 5 (3 - 1)) ∧
      slotAt ((([some sampleLabel, some sampleWriter, some (mkNop .wait_register),
          some sampleRot] : Block).insertIdx
          (findMapperPos [some sampleLabel, some sampleWriter,
            some (mkNop .wait_register), some sampleRot] (3 - 1))
          (some (mkMove 9 .int32 5))).set (3 + 1)
        (some (sampleRot.replaceLocalReader 5 9))) (3 + 1) =
        some (sampleRot.replaceLocalReader 5 9) ∧
      localCount (sampleRot.replaceLocalReader 5 9).args 5 = 0 ∧
      localCount (sampleRot.replaceLocalReader 5 9).args 9 = 1 ∧
      (sampleRot.replaceLocalReader 5 9).getSource = some (.localVal 9 .int32) ∧
      (∀ q, findMapperPos [some sampleLabel, some sampleWriter,
          some (mkNop .wait_register), some sampleRot] (3 - 1) ≤ q → q < 3 →
        ∃ nI, slotAt [some sampleLabel, some sampleWriter,
          some (mkNop .wait_register), some sampleRot] q = some nI ∧
          nI.isNop = true) ∧
      (findMapperPos [some sampleLabel, some sampleWriter,
          some (mkNop .wait_register), some sampleRot] (3 - 1) = 0 ∨
        ¬∃ nI, slotAt [some sampleLabel, some sampleWriter,
          some (mkNop .wait_register), some sampleRot]
          (findMapperPos [some sampleLabel, some sampleWriter,
            some (mkNop .wait_register), some sampleRot] (3 - 1) - 1) = some nI ∧
          nI.isNop = true) :=
  rotation_hoist_spec
    [some sampleLabel, some sampleWriter, some (mkNop .wait_register),
     some sampleRot] sampleRot 3 5 9 .int32 (by decide) (by decide) (by decide)
    (Or.inl (by decide)) (by decide) (by decide)
    ⟨mkNop .wait_register, rfl, rfl⟩ (by decide)

end VC4C
